import Mathlib

/-!  Verification of the discrete-filter engine in `Discrete_Filter/Filter.c`.

A filter owns four ring buffers.  Each buffer is modelled as a
capacity-bounded list of exact rationals, front = oldest element; `ℚ`
stands in for the C `float`, so the properties verified here are the
algebraic and structural ones (which value is paired with which
coefficient, buffer contents and lengths), not rounding behaviour.
The ring buffer itself (`Ring_Buffer.c` / `Ring_Buffer.h`) is not among
the filter sources; its operations are modelled from the spec's buffer
contract: removing from an empty buffer or inserting into a full one is
an error, modelled by `Option` (`none` = the error branch was taken).
All ring buffers of a program share one compile-time capacity; here the
capacity is carried in each buffer value.
-/

/-- Modelled from the spec: `Ring_Buffer_Float_t` (its C source is not
among the filter sources) is a fixed-capacity ordered sequence of
samples, logical order preserved, front = oldest. -/
structure Ring_Buffer_Float_t where
  data : List ℚ
  cap  : ℕ
  deriving DecidableEq

/-- Short alias for the ring-buffer type. -/
abbrev RB := Ring_Buffer_Float_t

/-- Modelled from the spec: current element count of a ring buffer. -/
def rb_length_F (b : RB) : ℕ := b.data.length

/-- Modelled from the spec: insert at the tail; capacity error when the
buffer is full. -/
def rb_push_back_F (b : RB) (v : ℚ) : Option RB :=
  if b.data.length = b.cap then none else some ⟨b.data ++ [v], b.cap⟩

/-- Modelled from the spec: insert at the head; capacity error when the
buffer is full. -/
def rb_push_front_F (b : RB) (v : ℚ) : Option RB :=
  if b.data.length = b.cap then none else some ⟨v :: b.data, b.cap⟩

/-- Modelled from the spec: remove and return the head (oldest) element;
underflow error when the buffer is empty. -/
def rb_pop_front_F (b : RB) : Option (ℚ × RB) :=
  match b.data with
  | [] => none
  | x :: xs => some (x, ⟨xs, b.cap⟩)

/-- Modelled from the spec: remove and return the tail (newest) element;
underflow error when the buffer is empty. -/
def rb_pop_back_F (b : RB) : Option (ℚ × RB) :=
  match b.data.getLast? with
  | none => none
  | some x => some (x, ⟨b.data.dropLast, b.cap⟩)

/-- Modelled from the spec: read the element at logical position `i`
(0 = oldest) without removing it; error when `i` is out of range. -/
def rb_get_F (b : RB) (i : ℕ) : Option ℚ := b.data.get? i

/-- `Filter_Data_t`: the four ring buffers owned by one filter. -/
structure Filter_Data_t where
  numerator   : RB
  denominator : RB
  in_list     : RB
  out_list    : RB
  deriving DecidableEq

/-- Body of the `Filter_Init` loop: `count` remaining iterations; each
iteration pushes the next numerator and denominator coefficient and a 0
into each history buffer.  Reading a coefficient past the end of the
supplied array (possible only when the array is shorter than `order+1`,
which the caller contract forbids) is out-of-bounds in C and modelled as
an error. -/
def filter_init_loop (count : ℕ) (nc dc : List ℚ) (f : Filter_Data_t) :
    Option Filter_Data_t :=
  match count, nc, dc with
  | 0, _, _ => some f
  | c + 1, n0 :: nrest, d0 :: drest => do
      let num ← rb_push_back_F f.numerator n0
      let den ← rb_push_back_F f.denominator d0
      let inl ← rb_push_back_F f.in_list 0
      let outl ← rb_push_back_F f.out_list 0
      filter_init_loop c nrest drest ⟨num, den, inl, outl⟩
  | _ + 1, [], _ => none
  | _ + 1, _, [] => none

/-- Exit condition of the `Filter_Init` loop `for (uint8_t i = 0; i <= order; i++)`:
the 8-bit index after `k` increments has value `k % 256`, so the loop
can exit iff some `k` makes the condition `i <= order` false.  For
`order = 255` no such `k` exists: the index wraps and the loop never
terminates. -/
def filter_init_loop_exits (order : ℕ) : Prop :=
  ∃ k : ℕ, order % 256 < k % 256

/-- `Filter_Init`: resets the four buffers and pushes `order+1`
coefficients and zeros.  The C loop `for (uint8_t i = 0; i <= order; i++)`
executes `order+1` iterations and exits when `order ≤ 254`; at
`order = 255` the 8-bit index wraps and the loop never exits
(see `filter_init_loop_exits`), modelled as `none` (no result is ever
produced).  `cap` is the shared compile-time ring-buffer capacity;
`order` is the value of the `uint8_t` parameter. -/
def Filter_Init (cap : ℕ) (numerator_coeffs denominator_coeffs : List ℚ)
    (order : ℕ) : Option Filter_Data_t :=
  if order < 255 then
    filter_init_loop (order + 1) numerator_coeffs denominator_coeffs
      ⟨⟨[], cap⟩, ⟨[], cap⟩, ⟨[], cap⟩, ⟨[], cap⟩⟩
  else none

/-- First `Filter_ShiftBy` loop: while the filter's `in_list` is
nonempty, pop the front of `in_list`/`out_list` and push onto the back
of the temporaries.  The loop is driven by the contents of `in_list`
(`l`), whose capacity is `capIn`. -/
def shiftLoop1 (l : List ℚ) (capIn : ℕ) (pout tin tout : RB) :
    Option (RB × RB × RB × RB) :=
  match l with
  | [] => some (⟨[], capIn⟩, pout, tin, tout)
  | x :: xs => do
      let tin1 ← rb_push_back_F tin x
      let (y, pout1) ← rb_pop_front_F pout
      let tout1 ← rb_push_back_F tout y
      shiftLoop1 xs capIn pout1 tin1 tout1

/-- Second `Filter_ShiftBy` loop: while the temporary input list is
nonempty, pop its front, add `shift`, and push onto the back of the
filter's lists.  Driven by the temporary input list contents `l`. -/
def shiftLoop2 (l : List ℚ) (tout pin pout : RB) (shift : ℚ) :
    Option (RB × RB × RB) :=
  match l with
  | [] => some (tout, pin, pout)
  | x :: xs => do
      let pin1 ← rb_push_back_F pin (x + shift)
      let (y, tout1) ← rb_pop_front_F tout
      let pout1 ← rb_push_back_F pout (y + shift)
      shiftLoop2 xs tout1 pin1 pout1 shift

/-- `Filter_ShiftBy`: moves both histories into stack temporaries, then
moves them back with `shift_amount` added to every sample.  The stack
temporaries share the compile-time ring-buffer capacity, here taken
from the corresponding history buffers. -/
def Filter_ShiftBy (f : Filter_Data_t) (shift_amount : ℚ) :
    Option Filter_Data_t := do
  let temp_in : RB := ⟨[], f.in_list.cap⟩
  let temp_out : RB := ⟨[], f.out_list.cap⟩
  let (pin1, pout1, tin1, tout1) ←
    shiftLoop1 f.in_list.data f.in_list.cap f.out_list temp_in temp_out
  let (_, pin2, pout2) ← shiftLoop2 tin1.data tout1 pin1 pout1 shift_amount
  some { f with in_list := pin2, out_list := pout2 }

/-- `Filter_SetTo` loop: `count` times, pop the front of each history
and push `amount` onto its back. -/
def setToLoop (count : ℕ) (inl outl : RB) (amount : ℚ) :
    Option (RB × RB) :=
  match count with
  | 0 => some (inl, outl)
  | c + 1 => do
      let (_, inl1) ← rb_pop_front_F inl
      let inl2 ← rb_push_back_F inl1 amount
      let (_, outl1) ← rb_pop_front_F outl
      let outl2 ← rb_push_back_F outl1 amount
      setToLoop c inl2 outl2 amount

/-- `Filter_SetTo`: overwrites every history sample with `amount`; the
loop count is the length of `in_list`. -/
def Filter_SetTo (f : Filter_Data_t) (amount : ℚ) : Option Filter_Data_t := do
  let length := rb_length_F f.in_list
  let (inl, outl) ← setToLoop length f.in_list f.out_list amount
  some { f with in_list := inl, out_list := outl }

/-- `Filter_Value` inner loop (`for (uint8_t i = 0; i < length - 1; i++)`):
each iteration rotates the coefficient buffers forward by one
(pop front, push back), rotates the history buffers backward by one
(pop back, push front), and accumulates `num_b * in_x` into `in_sum`
and `den_a * out_y` into `out_sum`. -/
def valueLoop (count : ℕ) (num den inl outl : RB) (in_sum out_sum : ℚ) :
    Option (RB × RB × RB × RB × ℚ × ℚ) :=
  match count with
  | 0 => some (num, den, inl, outl, in_sum, out_sum)
  | c + 1 => do
      let (num_b, num1) ← rb_pop_front_F num
      let (den_a, den1) ← rb_pop_front_F den
      let (in_x, inl1) ← rb_pop_back_F inl
      let (out_y, outl1) ← rb_pop_back_F outl
      let num2 ← rb_push_back_F num1 num_b
      let den2 ← rb_push_back_F den1 den_a
      let inl2 ← rb_push_front_F inl1 in_x
      let outl2 ← rb_push_front_F outl1 out_y
      valueLoop c num2 den2 inl2 outl2
        (in_sum + num_b * in_x) (out_sum + den_a * out_y)

/-- `Filter_Value`: evicts the oldest input and output sample, reads
`b0`/`a0` (rotating the coefficient buffers by one), accumulates
`b0 * value`, runs the inner loop `length - 1` times, computes
`(in_sum - out_sum) / a0`, and appends the new input and the new output
to the histories.  Note: in the C code `out_n` (the popped oldest
output) is never used in the sum. -/
def Filter_Value (f : Filter_Data_t) (value : ℚ) :
    Option (ℚ × Filter_Data_t) := do
  let length := rb_length_F f.numerator
  let (_, inl0) ← rb_pop_front_F f.in_list
  let (b0, num0) ← rb_pop_front_F f.numerator
  let (a0, den0) ← rb_pop_front_F f.denominator
  let in_n := value
  let (_, outl0) ← rb_pop_front_F f.out_list
  let num1 ← rb_push_back_F num0 b0
  let den1 ← rb_push_back_F den0 a0
  let in_sum := b0 * in_n
  let (num2, den2, inl1, outl1, in_sum1, out_sum1) ←
    valueLoop (length - 1) num1 den1 inl0 outl0 in_sum 0
  let out_val := (in_sum1 - out_sum1) / a0
  let inl2 ← rb_push_back_F inl1 in_n
  let outl2 ← rb_push_back_F outl1 out_val
  some (out_val, ⟨num2, den2, inl2, outl2⟩)

/-- `Filter_Last_Output`: reads the newest element of the output
history (logical index `length - 1`); no mutation (the function returns
only a value and no filter state). -/
def Filter_Last_Output (f : Filter_Data_t) : Option ℚ :=
  rb_get_F f.out_list (rb_length_F f.out_list - 1)

/-- Truncating dot product of two lists, pairing elements positionally;
used to state the difference-equation sums. -/
def dot : List ℚ → List ℚ → ℚ
  | [], _ => 0
  | _, [] => 0
  | x :: xs, y :: ys => x * y + dot xs ys

/-- Folding `Filter_Value` over a list of input samples. -/
def Filter_Value_seq (f : Filter_Data_t) : List ℚ → Option Filter_Data_t
  | [] => some f
  | v :: vs => do
      let (_, f1) ← Filter_Value f v
      Filter_Value_seq f1 vs

/-- One user-visible mutating operation on a filter after `Filter_Init`. -/
inductive FilterOp where
  | value   (v : ℚ)
  | shiftBy (s : ℚ)
  | setTo   (c : ℚ)
  deriving DecidableEq

/-- Apply one operation to a filter state. -/
def applyOp (f : Filter_Data_t) : FilterOp → Option Filter_Data_t
  | FilterOp.value v => do
      let (_, f1) ← Filter_Value f v
      some f1
  | FilterOp.shiftBy s => Filter_ShiftBy f s
  | FilterOp.setTo c => Filter_SetTo f c

/-- Apply a sequence of operations to a filter state. -/
def applyOps (f : Filter_Data_t) : List FilterOp → Option Filter_Data_t
  | [] => some f
  | op :: ops => do
      let f1 ← applyOp f op
      applyOps f1 ops

/-- The Ready-state well-formedness of §4: all four buffers hold exactly
`n` elements (with `n = order + 1`) and every capacity is at least `n`. -/
def Ready (f : Filter_Data_t) (n : ℕ) : Prop :=
  f.numerator.data.length = n ∧ f.denominator.data.length = n ∧
  f.in_list.data.length = n ∧ f.out_list.data.length = n ∧
  n ≤ f.numerator.cap ∧ n ≤ f.denominator.cap ∧
  n ≤ f.in_list.cap ∧ n ≤ f.out_list.cap

instance (f : Filter_Data_t) (n : ℕ) : Decidable (Ready f n) := by
  unfold Ready; infer_instance

lemma valueLoop_spec (count : ℕ) :
    ∀ (u₁ u₂ v₁ v₂ p r q w : List ℚ) (cn cd ci co : ℕ) (s t : ℚ),
      u₁.length = count → v₁.length = count → r.length = count → w.length = count →
      u₁.length + u₂.length ≤ cn → v₁.length + v₂.length ≤ cd →
      p.length + r.length ≤ ci → q.length + w.length ≤ co →
      valueLoop count ⟨u₁ ++ u₂, cn⟩ ⟨v₁ ++ v₂, cd⟩ ⟨p ++ r.reverse, ci⟩
          ⟨q ++ w.reverse, co⟩ s t
        = some (⟨u₂ ++ u₁, cn⟩, ⟨v₂ ++ v₁, cd⟩, ⟨r.reverse ++ p, ci⟩,
                ⟨w.reverse ++ q, co⟩, s + dot u₁ r, t + dot v₁ w) := by
  induction count with
  | zero =>
      intro u₁ u₂ v₁ v₂ p r q w cn cd ci co s t hu hv hr hw hcn hcd hci hco
      obtain rfl := List.length_eq_zero.mp hu
      obtain rfl := List.length_eq_zero.mp hv
      obtain rfl := List.length_eq_zero.mp hr
      obtain rfl := List.length_eq_zero.mp hw
      simp [valueLoop, dot]
  | succ c ih =>
      intro u₁ u₂ v₁ v₂ p r q w cn cd ci co s t hu hv hr hw hcn hcd hci hco
      rcases u₁ with _ | ⟨b, u₁'⟩
      · simp at hu
      rcases v₁ with _ | ⟨a, v₁'⟩
      · simp at hv
      rcases r with _ | ⟨r₀, r'⟩
      · simp at hr
      rcases w with _ | ⟨w₀, w'⟩
      · simp at hw
      simp only [List.length_cons] at hu hv hr hw hcn hcd hci hco
      have hu' : u₁'.length = c := by omega
      have hv' : v₁'.length = c := by omega
      have hr' : r'.length = c := by omega
      have hw' : w'.length = c := by omega
      have hnecn : ¬ (u₁'.length + u₂.length = cn) := by omega
      have hnecd : ¬ (v₁'.length + v₂.length = cd) := by omega
      have hneci : ¬ (p.length + r'.length = ci) := by omega
      have hneco : ¬ (q.length + w'.length = co) := by omega
      have H := ih u₁' (u₂ ++ [b]) v₁' (v₂ ++ [a]) (r₀ :: p) r' (w₀ :: q) w'
        cn cd ci co (s + b * r₀) (t + a * w₀)
        hu' hv' hr' hw' (by simp; omega) (by simp; omega) (by simp; omega)
        (by simp; omega)
      simp only [valueLoop, rb_pop_front_F, rb_pop_back_F, rb_push_back_F,
        rb_push_front_F, List.cons_append, List.reverse_cons, dot] at H ⊢
      simp [hnecn, hnecd, hneci, hneco, List.append_assoc, add_assoc] at H ⊢
      rw [H]

/-- One `Filter_Value` call on an explicit Ready state: the returned
output is the difference-equation value and the state update appends the
new input/output and evicts the oldest of each, with the coefficient
buffers ending in their original order. -/
lemma Filter_Value_eq (n cn cd ci co : ℕ) (b₀ a₀ x₀ y₀ v : ℚ)
    (bs as xt yt : List ℚ)
    (hbs : bs.length = n) (has : as.length = n)
    (hxt : xt.length = n) (hyt : yt.length = n)
    (hcn : n + 1 ≤ cn) (hcd : n + 1 ≤ cd) (hci : n + 1 ≤ ci) (hco : n + 1 ≤ co) :
    Filter_Value ⟨⟨b₀ :: bs, cn⟩, ⟨a₀ :: as, cd⟩, ⟨x₀ :: xt, ci⟩, ⟨y₀ :: yt, co⟩⟩ v
      = some ((b₀ * v + dot bs xt.reverse - dot as yt.reverse) / a₀,
          ⟨⟨b₀ :: bs, cn⟩, ⟨a₀ :: as, cd⟩, ⟨xt ++ [v], ci⟩,
           ⟨yt ++ [(b₀ * v + dot bs xt.reverse - dot as yt.reverse) / a₀], co⟩⟩) := by
  have H := valueLoop_spec n bs [b₀] as [a₀] ([] : List ℚ) xt.reverse
    ([] : List ℚ) yt.reverse cn cd ci co (b₀ * v) 0 hbs has
    (by simp [hxt]) (by simp [hyt]) (by simp [hbs]; omega) (by simp [has]; omega)
    (by simp [hxt]; omega) (by simp [hyt]; omega)
  simp only [List.reverse_reverse, List.nil_append, List.append_nil] at H
  have h1 : ¬ (bs.length = cn) := by omega
  have h2 : ¬ (as.length = cd) := by omega
  have h3 : ¬ (xt.length = ci) := by omega
  have h4 : ¬ (yt.length = co) := by omega
  simp only [Filter_Value, rb_length_F, rb_pop_front_F, rb_push_back_F,
    List.length_cons, hbs, Nat.add_sub_cancel]
  simp [h1, h2, h3, h4, H]

/-- First shift loop: drains `l` (the filter's input history) and the
front of `pout` into the temporaries, in order. -/
lemma shiftLoop1_spec (l : List ℚ) :
    ∀ (capIn : ℕ) (pout tin tout : RB),
      l.length ≤ pout.data.length →
      tin.data.length + l.length ≤ tin.cap →
      tout.data.length + l.length ≤ tout.cap →
      shiftLoop1 l capIn pout tin tout
        = some (⟨[], capIn⟩, ⟨pout.data.drop l.length, pout.cap⟩,
                ⟨tin.data ++ l, tin.cap⟩,
                ⟨tout.data ++ pout.data.take l.length, tout.cap⟩) := by
  induction l with
  | nil =>
      intro capIn pout tin tout h1 h2 h3
      simp [shiftLoop1]
  | cons x xs ih =>
      intro capIn pout tin tout h1 h2 h3
      obtain ⟨pd, pc⟩ := pout
      rcases pd with _ | ⟨z, zs⟩
      · simp at h1
      obtain ⟨td, tc⟩ := tin
      obtain ⟨od, oc⟩ := tout
      simp only [List.length_cons] at h1 h2 h3
      have hne1 : ¬ (td.length = tc) := by omega
      have hne2 : ¬ (od.length = oc) := by omega
      have H := ih capIn ⟨zs, pc⟩ ⟨td ++ [x], tc⟩ ⟨od ++ [z], oc⟩
        (by simp; omega) (by simp; omega) (by simp; omega)
      simp only [shiftLoop1, rb_push_back_F, rb_pop_front_F]
      simp [hne1, hne2, H]

/-- Second shift loop: drains `l` (the temporary input list) back into
the filter's buffers, adding `shift` to every sample. -/
lemma shiftLoop2_spec (l : List ℚ) :
    ∀ (tout pin pout : RB) (s : ℚ),
      l.length ≤ tout.data.length →
      pin.data.length + l.length ≤ pin.cap →
      pout.data.length + l.length ≤ pout.cap →
      shiftLoop2 l tout pin pout s
        = some (⟨tout.data.drop l.length, tout.cap⟩,
                ⟨pin.data ++ l.map (fun z => z + s), pin.cap⟩,
                ⟨pout.data ++ (tout.data.take l.length).map (fun z => z + s),
                 pout.cap⟩) := by
  induction l with
  | nil =>
      intro tout pin pout s h1 h2 h3
      simp [shiftLoop2]
  | cons x xs ih =>
      intro tout pin pout s h1 h2 h3
      obtain ⟨od, oc⟩ := tout
      rcases od with _ | ⟨z, zs⟩
      · simp at h1
      obtain ⟨pid, pic⟩ := pin
      obtain ⟨pod, poc⟩ := pout
      simp only [List.length_cons] at h1 h2 h3
      have hne1 : ¬ (pid.length = pic) := by omega
      have hne2 : ¬ (pod.length = poc) := by omega
      have H := ih ⟨zs, oc⟩ ⟨pid ++ [x + s], pic⟩ ⟨pod ++ [z + s], poc⟩ s
        (by simp; omega) (by simp; omega) (by simp; omega)
      simp only [shiftLoop2, rb_push_back_F, rb_pop_front_F]
      simp [hne1, hne2, H]

/-- `Filter_ShiftBy` on an explicit state: adds `s` to every history
sample, leaves coefficients, order and lengths unchanged. -/
lemma Filter_ShiftBy_eq (num den : RB) (ci co : ℕ) (xs ys : List ℚ) (s : ℚ)
    (hlen : xs.length = ys.length) (hci : xs.length ≤ ci)
    (hco : ys.length ≤ co) :
    Filter_ShiftBy ⟨num, den, ⟨xs, ci⟩, ⟨ys, co⟩⟩ s
      = some ⟨num, den, ⟨xs.map (fun z => z + s), ci⟩,
              ⟨ys.map (fun z => z + s), co⟩⟩ := by
  have H1 := shiftLoop1_spec xs ci ⟨ys, co⟩ ⟨[], ci⟩ ⟨[], co⟩
    (by simp [hlen]) (by simpa using hci) (by simpa [hlen] using hco)
  have H2 := shiftLoop2_spec xs ⟨ys, co⟩ ⟨[], ci⟩ ⟨[], co⟩ s
    (by simp [hlen]) (by simpa using hci) (by simpa [hlen] using hco)
  simp only [Filter_ShiftBy]
  simp [H1, hlen, H2]

/-- `Filter_SetTo` loop: after `count` pop/push rounds the first `count`
samples of each history are replaced by `amount` at the back. -/
lemma setToLoop_spec (count : ℕ) :
    ∀ (inl outl : RB) (a : ℚ),
      count ≤ inl.data.length → count ≤ outl.data.length →
      inl.data.length ≤ inl.cap → outl.data.length ≤ outl.cap →
      setToLoop count inl outl a
        = some (⟨inl.data.drop count ++ List.replicate count a, inl.cap⟩,
                ⟨outl.data.drop count ++ List.replicate count a, outl.cap⟩) := by
  induction count with
  | zero =>
      intro inl outl a h1 h2 h3 h4
      simp [setToLoop]
  | succ c ih =>
      intro inl outl a h1 h2 h3 h4
      obtain ⟨id, ic⟩ := inl
      obtain ⟨od, oc⟩ := outl
      rcases id with _ | ⟨z, zs⟩
      · simp at h1
      rcases od with _ | ⟨y, ys⟩
      · simp at h2
      simp only [List.length_cons] at h1 h2 h3 h4
      have hne1 : ¬ (zs.length = ic) := by omega
      have hne2 : ¬ (ys.length = oc) := by omega
      have H := ih ⟨zs ++ [a], ic⟩ ⟨ys ++ [a], oc⟩ a
        (by simp; omega) (by simp; omega) (by simp; omega) (by simp; omega)
      simp only [setToLoop, rb_pop_front_F, rb_push_back_F]
      simp [hne1, hne2, H, List.drop_append_of_le_length (by omega : c ≤ zs.length),
        List.drop_append_of_le_length (by omega : c ≤ ys.length),
        List.replicate_succ]

/-- `Filter_SetTo` on an explicit state: both histories become constant
`amount`, coefficients and lengths unchanged. -/
lemma Filter_SetTo_eq (num den : RB) (ci co : ℕ) (xs ys : List ℚ) (a : ℚ)
    (hlen : xs.length = ys.length) (hci : xs.length ≤ ci)
    (hco : ys.length ≤ co) :
    Filter_SetTo ⟨num, den, ⟨xs, ci⟩, ⟨ys, co⟩⟩ a
      = some ⟨num, den, ⟨List.replicate xs.length a, ci⟩,
              ⟨List.replicate xs.length a, co⟩⟩ := by
  have H := setToLoop_spec xs.length ⟨xs, ci⟩ ⟨ys, co⟩ a
    (by simp) (by simp [hlen]) (by simpa using hci) (by simpa using hco)
  simp only [Filter_SetTo, rb_length_F]
  have hd : ys.drop xs.length = [] := by rw [hlen]; simp
  simp [H, hd]

/-- `Filter_Init` loop: pushes the supplied coefficients and zeros onto
the back of each buffer, `count` of each. -/
lemma filter_init_loop_spec (count : ℕ) :
    ∀ (nc dc : List ℚ) (f : Filter_Data_t),
      nc.length = count → dc.length = count →
      f.numerator.data.length + count ≤ f.numerator.cap →
      f.denominator.data.length + count ≤ f.denominator.cap →
      f.in_list.data.length + count ≤ f.in_list.cap →
      f.out_list.data.length + count ≤ f.out_list.cap →
      filter_init_loop count nc dc f
        = some ⟨⟨f.numerator.data ++ nc, f.numerator.cap⟩,
                ⟨f.denominator.data ++ dc, f.denominator.cap⟩,
                ⟨f.in_list.data ++ List.replicate count 0, f.in_list.cap⟩,
                ⟨f.out_list.data ++ List.replicate count 0, f.out_list.cap⟩⟩ := by
  induction count with
  | zero =>
      intro nc dc f h1 h2 h3 h4 h5 h6
      obtain rfl := List.length_eq_zero.mp h1
      obtain rfl := List.length_eq_zero.mp h2
      simp [filter_init_loop]
  | succ c ih =>
      intro nc dc f h1 h2 h3 h4 h5 h6
      rcases nc with _ | ⟨n0, nrest⟩
      · simp at h1
      rcases dc with _ | ⟨d0, drest⟩
      · simp at h2
      obtain ⟨⟨nd, ncp⟩, ⟨dd, dcp⟩, ⟨xd, icp⟩, ⟨yd, ocp⟩⟩ := f
      simp only [List.length_cons] at h1 h2 h3 h4 h5 h6
      have hne1 : ¬ (nd.length = ncp) := by omega
      have hne2 : ¬ (dd.length = dcp) := by omega
      have hne3 : ¬ (xd.length = icp) := by omega
      have hne4 : ¬ (yd.length = ocp) := by omega
      have H := ih nrest drest
        ⟨⟨nd ++ [n0], ncp⟩, ⟨dd ++ [d0], dcp⟩, ⟨xd ++ [0], icp⟩, ⟨yd ++ [0], ocp⟩⟩
        (by omega) (by omega) (by simp; omega) (by simp; omega)
        (by simp; omega) (by simp; omega)
      simp only [filter_init_loop, rb_push_back_F]
      simp [hne1, hne2, hne3, hne4, H, List.replicate_succ]

/-- `Filter_Init` on valid inputs (`order ≤ 254`, arrays of length
`order+1`, capacity at least `order+1`): the coefficients are loaded
verbatim and the histories are `order+1` zeros. -/
lemma Filter_Init_eq (cap : ℕ) (nc dc : List ℚ) (order : ℕ)
    (hord : order < 255) (hnc : nc.length = order + 1)
    (hdc : dc.length = order + 1) (hcap : order + 1 ≤ cap) :
    Filter_Init cap nc dc order
      = some ⟨⟨nc, cap⟩, ⟨dc, cap⟩, ⟨List.replicate (order + 1) 0, cap⟩,
              ⟨List.replicate (order + 1) 0, cap⟩⟩ := by
  have H := filter_init_loop_spec (order + 1) nc dc
    ⟨⟨[], cap⟩, ⟨[], cap⟩, ⟨[], cap⟩, ⟨[], cap⟩⟩ hnc hdc
    (by simpa using hcap) (by simpa using hcap) (by simpa using hcap)
    (by simpa using hcap)
  simp only [Filter_Init, if_pos hord]
  simpa using H

/-- Shifting the sample list shifts a truncating dot product by the
coefficient sum times the shift. -/
lemma dot_map_add (u : List ℚ) :
    ∀ (l : List ℚ) (s : ℚ), u.length = l.length →
      dot u (l.map (fun z => z + s)) = dot u l + s * u.sum := by
  induction u with
  | nil => intro l s h; simp [dot]
  | cons x xs ih =>
      intro l s h
      rcases l with _ | ⟨y, ys⟩
      · simp at h
      simp only [List.length_cons] at h
      simp only [List.map_cons, dot, List.sum_cons, ih ys s (by omega)]
      ring

/-- `Filter_Last_Output` reads the newest (tail) element. -/
lemma Filter_Last_Output_eq (f : Filter_Data_t) :
    Filter_Last_Output f = f.out_list.data.getLast? := by
  unfold Filter_Last_Output rb_get_F rb_length_F
  rcases f.out_list.data.eq_nil_or_concat with h | ⟨l, a, h⟩
  · simp [h]
  · simp [h, List.get?_eq_getElem?]

/-- `Filter_Value` succeeds on any Ready state and preserves readiness
and both coefficient buffers. -/
lemma Filter_Value_ready (f : Filter_Data_t) (n : ℕ) (v : ℚ)
    (hf : Ready f (n + 1)) :
    ∃ o f1, Filter_Value f v = some (o, f1) ∧ Ready f1 (n + 1) ∧
      f1.numerator = f.numerator ∧ f1.denominator = f.denominator := by
  obtain ⟨⟨nd, ncp⟩, ⟨dd, dcp⟩, ⟨xd, icp⟩, ⟨yd, ocp⟩⟩ := f
  obtain ⟨h1, h2, h3, h4, h5, h6, h7, h8⟩ := hf
  simp only at h1 h2 h3 h4 h5 h6 h7 h8
  rcases nd with _ | ⟨b₀, bs⟩
  · simp at h1
  rcases dd with _ | ⟨a₀, az⟩
  · simp at h2
  rcases xd with _ | ⟨x₀, xt⟩
  · simp at h3
  rcases yd with _ | ⟨y₀, yt⟩
  · simp at h4
  simp only [List.length_cons] at h1 h2 h3 h4
  have H := Filter_Value_eq n ncp dcp icp ocp b₀ a₀ x₀ y₀ v bs az xt yt
    (by omega) (by omega) (by omega) (by omega) h5 h6 h7 h8
  refine ⟨_, _, H, ?_, rfl, rfl⟩
  unfold Ready
  simp
  omega

/-- `Filter_ShiftBy` succeeds on any Ready state and preserves readiness
and both coefficient buffers. -/
lemma Filter_ShiftBy_ready (f : Filter_Data_t) (n : ℕ) (s : ℚ)
    (hf : Ready f n) :
    ∃ f1, Filter_ShiftBy f s = some f1 ∧ Ready f1 n ∧
      f1.numerator = f.numerator ∧ f1.denominator = f.denominator := by
  obtain ⟨num, den, ⟨xd, icp⟩, ⟨yd, ocp⟩⟩ := f
  obtain ⟨h1, h2, h3, h4, h5, h6, h7, h8⟩ := hf
  simp only at h1 h2 h3 h4 h5 h6 h7 h8
  have H := Filter_ShiftBy_eq num den icp ocp xd yd s (by omega)
    (by omega) (by omega)
  refine ⟨_, H, ?_, rfl, rfl⟩
  unfold Ready
  simp
  omega

/-- `Filter_SetTo` succeeds on any Ready state and preserves readiness
and both coefficient buffers. -/
lemma Filter_SetTo_ready (f : Filter_Data_t) (n : ℕ) (a : ℚ)
    (hf : Ready f n) :
    ∃ f1, Filter_SetTo f a = some f1 ∧ Ready f1 n ∧
      f1.numerator = f.numerator ∧ f1.denominator = f.denominator := by
  obtain ⟨num, den, ⟨xd, icp⟩, ⟨yd, ocp⟩⟩ := f
  obtain ⟨h1, h2, h3, h4, h5, h6, h7, h8⟩ := hf
  simp only at h1 h2 h3 h4 h5 h6 h7 h8
  have H := Filter_SetTo_eq num den icp ocp xd yd a (by omega)
    (by omega) (by omega)
  refine ⟨_, H, ?_, rfl, rfl⟩
  unfold Ready
  simp
  omega

/-- Any operation sequence succeeds from a Ready state and preserves
readiness and both coefficient buffers. -/
lemma applyOps_ready (ops : List FilterOp) :
    ∀ (f : Filter_Data_t) (n : ℕ), Ready f (n + 1) →
      ∃ f1, applyOps f ops = some f1 ∧ Ready f1 (n + 1) ∧
        f1.numerator = f.numerator ∧ f1.denominator = f.denominator := by
  induction ops with
  | nil => intro f n hf; exact ⟨f, rfl, hf, rfl, rfl⟩
  | cons op ops ih =>
      intro f n hf
      rcases op with v | s | c
      · obtain ⟨o, f1, hv, hr, hnum, hden⟩ := Filter_Value_ready f n v hf
        obtain ⟨f2, hops, hr2, hnum2, hden2⟩ := ih f1 n hr
        exact ⟨f2, by simp [applyOps, applyOp, hv, hops], hr2,
          hnum2.trans hnum, hden2.trans hden⟩
      · obtain ⟨f1, hv, hr, hnum, hden⟩ := Filter_ShiftBy_ready f (n + 1) s hf
        obtain ⟨f2, hops, hr2, hnum2, hden2⟩ := ih f1 n hr
        exact ⟨f2, by simp [applyOps, applyOp, hv, hops], hr2,
          hnum2.trans hnum, hden2.trans hden⟩
      · obtain ⟨f1, hv, hr, hnum, hden⟩ := Filter_SetTo_ready f (n + 1) c hf
        obtain ⟨f2, hops, hr2, hnum2, hden2⟩ := ih f1 n hr
        exact ⟨f2, by simp [applyOps, applyOp, hv, hops], hr2,
          hnum2.trans hnum, hden2.trans hden⟩

/-- Any sequence of `Filter_Value` calls succeeds from a Ready state and
preserves readiness and both coefficient buffers. -/
lemma Filter_Value_seq_ready (vs : List ℚ) :
    ∀ (f : Filter_Data_t) (n : ℕ), Ready f (n + 1) →
      ∃ f1, Filter_Value_seq f vs = some f1 ∧ Ready f1 (n + 1) ∧
        f1.numerator = f.numerator ∧ f1.denominator = f.denominator := by
  induction vs with
  | nil => intro f n hf; exact ⟨f, rfl, hf, rfl, rfl⟩
  | cons v vs ih =>
      intro f n hf
      obtain ⟨o, f1, hv, hr, hnum, hden⟩ := Filter_Value_ready f n v hf
      obtain ⟨f2, hops, hr2, hnum2, hden2⟩ := ih f1 n hr
      exact ⟨f2, by simp [Filter_Value_seq, hv, hops], hr2,
        hnum2.trans hnum, hden2.trans hden⟩

/-- The init loop exits exactly for the `uint8_t` order values 0..254. -/
lemma filter_init_loop_exits_iff (order : ℕ) (hord : order ≤ 255) :
    filter_init_loop_exits order ↔ order < 255 := by
  constructor
  · rintro ⟨k, hk⟩
    have := Nat.mod_lt k (show 0 < 256 by omega)
    omega
  · intro h
    exact ⟨order + 1, by rw [Nat.mod_eq_of_lt (by omega), Nat.mod_eq_of_lt (by omega)]; omega⟩

/-- Claim C1: on any Ready filter (coefficients `b₀ :: bs`, `a₀ :: as`
with `a₀ ≠ 0`, histories `x₀ :: xt` and `y₀ :: yt`, oldest first, as
left by `Filter_Init` and any prior updates), `Filter_Value` returns
`(b₀·v + Σ bᵢ·x[n−i] − Σ aᵢ·y[n−i]) / a₀`, where `dot bs xt.reverse`
pairs `bᵢ` with the i-th most recent previously stored input and
`dot as yt.reverse` pairs `aᵢ` with the i-th most recent previous
output; afterwards `v` is appended to the input history, the returned
output to the output history, and the oldest sample of each (`x₀`,
`y₀`) is evicted. -/
theorem C1_difference_equation (n cn cd ci co : ℕ) (b₀ a₀ x₀ y₀ v : ℚ)
    (bs az xt yt : List ℚ)
    (hbs : bs.length = n) (haz : az.length = n)
    (hxt : xt.length = n) (hyt : yt.length = n)
    (hcn : n + 1 ≤ cn) (hcd : n + 1 ≤ cd) (hci : n + 1 ≤ ci)
    (hco : n + 1 ≤ co) (ha₀ : a₀ ≠ 0) :
    Filter_Value ⟨⟨b₀ :: bs, cn⟩, ⟨a₀ :: az, cd⟩, ⟨x₀ :: xt, ci⟩, ⟨y₀ :: yt, co⟩⟩ v
      = some ((b₀ * v + dot bs xt.reverse - dot az yt.reverse) / a₀,
          ⟨⟨b₀ :: bs, cn⟩, ⟨a₀ :: az, cd⟩, ⟨xt ++ [v], ci⟩,
           ⟨yt ++ [(b₀ * v + dot bs xt.reverse - dot az yt.reverse) / a₀], co⟩⟩) :=
  Filter_Value_eq n cn cd ci co b₀ a₀ x₀ y₀ v bs az xt yt hbs haz hxt hyt
    hcn hcd hci hco

theorem C1_witness :
    (1 : ℚ) ≠ 0 ∧
    Filter_Value ⟨⟨[1, 2], 2⟩, ⟨[1, 0], 2⟩, ⟨[0, 4], 2⟩, ⟨[0, 5], 2⟩⟩ 6
      = some ((1 * 6 + dot [2] ([4] : List ℚ).reverse
                - dot [0] ([5] : List ℚ).reverse) / 1,
          ⟨⟨[1, 2], 2⟩, ⟨[1, 0], 2⟩, ⟨[4] ++ [6], 2⟩,
           ⟨[5] ++ [(1 * 6 + dot [2] ([4] : List ℚ).reverse
                - dot [0] ([5] : List ℚ).reverse) / 1], 2⟩⟩) :=
  ⟨by norm_num,
   C1_difference_equation 1 2 2 2 2 1 1 0 0 6 [2] [0] [4] [5] rfl rfl rfl rfl
     (by norm_num) (by norm_num) (by norm_num) (by norm_num) (by norm_num)⟩

/-- Claim C2: from any filter initialized with order `N` (arrays of
length `N+1`, shared capacity at least `N+1`, `N ≤ 254` so that
initialization completes), every sequence of `Filter_Value`,
`Filter_ShiftBy` and `Filter_SetTo` calls succeeds and leaves all four
buffers at length `N+1`; since `ops` ranges over all sequences, every
intermediate state (the final state of a prefix) also has all four
lengths equal to `N+1`. -/
theorem C2_length_invariant (cap order : ℕ) (nc dc : List ℚ)
    (ops : List FilterOp) (hord : order < 255)
    (hnc : nc.length = order + 1) (hdc : dc.length = order + 1)
    (hcap : order + 1 ≤ cap) :
    ∃ f0 f, Filter_Init cap nc dc order = some f0 ∧
      applyOps f0 ops = some f ∧
      rb_length_F f.numerator = order + 1 ∧
      rb_length_F f.denominator = order + 1 ∧
      rb_length_F f.in_list = order + 1 ∧
      rb_length_F f.out_list = order + 1 := by
  have HI := Filter_Init_eq cap nc dc order hord hnc hdc hcap
  have hready : Ready ⟨⟨nc, cap⟩, ⟨dc, cap⟩, ⟨List.replicate (order + 1) 0, cap⟩,
      ⟨List.replicate (order + 1) 0, cap⟩⟩ (order + 1) := by
    unfold Ready
    simp [hnc, hdc, hcap]
  obtain ⟨f1, hops, hr, _, _⟩ := applyOps_ready ops _ order hready
  exact ⟨_, f1, HI, hops, hr.1, hr.2.1, hr.2.2.1, hr.2.2.2.1⟩

theorem C2_witness :
    (0 : ℕ) < 255 ∧
    (∃ f0 f, Filter_Init 1 [1] [1] 0 = some f0 ∧
      applyOps f0 [FilterOp.value 3, FilterOp.shiftBy 2, FilterOp.setTo 5] = some f ∧
      rb_length_F f.numerator = 0 + 1 ∧
      rb_length_F f.denominator = 0 + 1 ∧
      rb_length_F f.in_list = 0 + 1 ∧
      rb_length_F f.out_list = 0 + 1) :=
  ⟨by norm_num,
   C2_length_invariant 1 0 [1] [1] [FilterOp.value 3, FilterOp.shiftBy 2, FilterOp.setTo 5]
     (by norm_num) rfl rfl (by norm_num)⟩

/-- Claim C3: from any filter initialized with coefficients `nc`/`dc`,
after any number of `Filter_Value` calls the numerator and denominator
buffers, read oldest to newest, are exactly the sequences passed to
`Filter_Init`: the internal rotation restores the original order by the
time each call returns. -/
theorem C3_coefficient_stability (cap order : ℕ) (nc dc vs : List ℚ)
    (hord : order < 255) (hnc : nc.length = order + 1)
    (hdc : dc.length = order + 1) (hcap : order + 1 ≤ cap) :
    ∃ f0 f, Filter_Init cap nc dc order = some f0 ∧
      Filter_Value_seq f0 vs = some f ∧
      f.numerator.data = nc ∧ f.denominator.data = dc := by
  have HI := Filter_Init_eq cap nc dc order hord hnc hdc hcap
  have hready : Ready ⟨⟨nc, cap⟩, ⟨dc, cap⟩, ⟨List.replicate (order + 1) 0, cap⟩,
      ⟨List.replicate (order + 1) 0, cap⟩⟩ (order + 1) := by
    unfold Ready
    simp [hnc, hdc, hcap]
  obtain ⟨f1, hops, _, hnum, hden⟩ := Filter_Value_seq_ready vs _ order hready
  refine ⟨_, f1, HI, hops, ?_, ?_⟩
  · rw [hnum]
  · rw [hden]

theorem C3_witness :
    (0 : ℕ) < 255 ∧
    (∃ f0 f, Filter_Init 1 [1] [1] 0 = some f0 ∧
      Filter_Value_seq f0 [7, 8] = some f ∧
      f.numerator.data = [1] ∧ f.denominator.data = [1]) :=
  ⟨by norm_num,
   C3_coefficient_stability 1 0 [1] [1] [7, 8] (by norm_num) rfl rfl (by norm_num)⟩

/-- Claim C4 counterexample: at `order = 255` (with coefficient arrays
of the required length `order + 1 = 256` and ample capacity) the
`uint8_t` loop index of `Filter_Init` wraps, the loop never exits, and
no initialized filter state is ever produced (`none`), contradicting
the claim read over every order value. -/
theorem C4_counterexample :
    (List.replicate 256 (1 : ℚ)).length = 255 + 1 ∧
    Filter_Init 256 (List.replicate 256 1) (List.replicate 256 1) 255 = none := by
  constructor
  · rw [List.length_replicate]
  · unfold Filter_Init
    rw [if_neg (by omega)]

/-- Claim C4 (amended: for every order `N ≤ 254`, the values of the
`uint8_t` order parameter on which the init loop terminates):
`Filter_Init` leaves the numerator and denominator holding the given
coefficients verbatim in index order 0..N, and both histories holding
exactly `N+1` zeros. -/
theorem C4_init_state (cap : ℕ) (nc dc : List ℚ) (order : ℕ)
    (hord : order ≤ 254) (hnc : nc.length = order + 1)
    (hdc : dc.length = order + 1) (hcap : order + 1 ≤ cap) :
    Filter_Init cap nc dc order
      = some ⟨⟨nc, cap⟩, ⟨dc, cap⟩, ⟨List.replicate (order + 1) 0, cap⟩,
              ⟨List.replicate (order + 1) 0, cap⟩⟩ :=
  Filter_Init_eq cap nc dc order (by omega) hnc hdc hcap

theorem C4_witness :
    (0 : ℕ) ≤ 254 ∧
    Filter_Init 1 [1] [1] 0
      = some ⟨⟨[1], 1⟩, ⟨[1], 1⟩, ⟨List.replicate (0 + 1) 0, 1⟩,
              ⟨List.replicate (0 + 1) 0, 1⟩⟩ :=
  ⟨by norm_num, C4_init_state 1 [1] [1] 0 (by norm_num) rfl rfl (by norm_num)⟩

/-- Claim C5 counterexample: for `order = 255` (a value of the
`uint8_t` order parameter) there is no iteration count at which the
loop condition `i <= order` of `Filter_Init` fails: the loop never
exits, so `Filter_Init` does not terminate, contradicting the claim
over the full range of the parameter's type. -/
theorem C5_counterexample : ¬ filter_init_loop_exits 255 := by
  rintro ⟨k, hk⟩
  have := Nat.mod_lt k (show 0 < 256 by omega)
  omega

/-- Claim C5 (amended: for every order value `0 ≤ order ≤ 254`, not the
full `uint8_t` range): the init loop exits, and `Filter_Init` succeeds
having performed exactly `order + 1` insertions into each of the four
buffers (each buffer starts empty and ends with `order + 1` elements). -/
theorem C5_init_terminates (cap : ℕ) (nc dc : List ℚ) (order : ℕ)
    (hord : order ≤ 254) (hnc : nc.length = order + 1)
    (hdc : dc.length = order + 1) (hcap : order + 1 ≤ cap) :
    filter_init_loop_exits order ∧
    ∃ f, Filter_Init cap nc dc order = some f ∧
      rb_length_F f.numerator = order + 1 ∧
      rb_length_F f.denominator = order + 1 ∧
      rb_length_F f.in_list = order + 1 ∧
      rb_length_F f.out_list = order + 1 := by
  refine ⟨(filter_init_loop_exits_iff order (by omega)).mpr (by omega), ?_⟩
  refine ⟨_, Filter_Init_eq cap nc dc order (by omega) hnc hdc hcap, ?_, ?_, ?_, ?_⟩
  all_goals simp [rb_length_F, hnc, hdc]

theorem C5_witness :
    (1 : ℕ) ≤ 254 ∧
    (filter_init_loop_exits 1 ∧
    ∃ f, Filter_Init 2 [1, 0] [1, 0] 1 = some f ∧
      rb_length_F f.numerator = 1 + 1 ∧
      rb_length_F f.denominator = 1 + 1 ∧
      rb_length_F f.in_list = 1 + 1 ∧
      rb_length_F f.out_list = 1 + 1) :=
  ⟨by norm_num, C5_init_terminates 2 [1, 0] [1, 0] 1 (by norm_num) rfl rfl (by norm_num)⟩

/-- Claim C6: on a filter whose histories `xs`/`ys` have equal lengths
within capacity (the Ready state), `Filter_ShiftBy` adds
`shift_amount` to every input- and output-history sample, preserving
order (elementwise `map`) and both buffer lengths, and leaves the
numerator and denominator buffers unchanged. -/
theorem C6_shiftby_adds_to_histories (num den : RB) (ci co : ℕ)
    (xs ys : List ℚ) (s : ℚ) (hlen : xs.length = ys.length)
    (hci : xs.length ≤ ci) (hco : ys.length ≤ co) :
    Filter_ShiftBy ⟨num, den, ⟨xs, ci⟩, ⟨ys, co⟩⟩ s
      = some ⟨num, den, ⟨xs.map (fun z => z + s), ci⟩,
              ⟨ys.map (fun z => z + s), co⟩⟩ ∧
    (xs.map (fun z => z + s)).length = xs.length ∧
    (ys.map (fun z => z + s)).length = ys.length :=
  ⟨Filter_ShiftBy_eq num den ci co xs ys s hlen hci hco, by simp, by simp⟩

theorem C6_witness :
    ([2, 3] : List ℚ).length = ([5, 6] : List ℚ).length ∧
    (Filter_ShiftBy ⟨⟨[1], 1⟩, ⟨[1], 1⟩, ⟨[2, 3], 2⟩, ⟨[5, 6], 2⟩⟩ 4
      = some ⟨⟨[1], 1⟩, ⟨[1], 1⟩, ⟨([2, 3] : List ℚ).map (fun z => z + 4), 2⟩,
              ⟨([5, 6] : List ℚ).map (fun z => z + 4), 2⟩⟩ ∧
    (([2, 3] : List ℚ).map (fun z => z + 4)).length = ([2, 3] : List ℚ).length ∧
    (([5, 6] : List ℚ).map (fun z => z + 4)).length = ([5, 6] : List ℚ).length) :=
  ⟨rfl, C6_shiftby_adds_to_histories ⟨[1], 1⟩ ⟨[1], 1⟩ 2 2 [2, 3] [5, 6] 4 rfl
    (by norm_num) (by norm_num)⟩

/-- Claim C7: `Filter_SetTo` overwrites every input- and output-history
sample with `c`, leaving coefficients and lengths unchanged;
`Filter_Last_Output` immediately afterwards returns `c`, and a second
`Filter_SetTo` with the same value returns the same state (idempotence). -/
theorem C7_setto_overwrites (num den : RB) (ci co : ℕ) (xs ys : List ℚ)
    (c : ℚ) (hpos : 1 ≤ xs.length) (hlen : xs.length = ys.length)
    (hci : xs.length ≤ ci) (hco : ys.length ≤ co) :
    Filter_SetTo ⟨num, den, ⟨xs, ci⟩, ⟨ys, co⟩⟩ c
      = some ⟨num, den, ⟨List.replicate xs.length c, ci⟩,
              ⟨List.replicate xs.length c, co⟩⟩ ∧
    Filter_Last_Output ⟨num, den, ⟨List.replicate xs.length c, ci⟩,
        ⟨List.replicate xs.length c, co⟩⟩ = some c ∧
    Filter_SetTo ⟨num, den, ⟨List.replicate xs.length c, ci⟩,
        ⟨List.replicate xs.length c, co⟩⟩ c
      = some ⟨num, den, ⟨List.replicate xs.length c, ci⟩,
              ⟨List.replicate xs.length c, co⟩⟩ := by
  refine ⟨Filter_SetTo_eq num den ci co xs ys c hlen hci hco, ?_, ?_⟩
  · rw [Filter_Last_Output_eq]
    obtain ⟨m, hm⟩ : ∃ m, xs.length = m + 1 := ⟨xs.length - 1, by omega⟩
    rw [hm]
    simp [List.replicate_succ']
  · have H := Filter_SetTo_eq num den ci co (List.replicate xs.length c)
      (List.replicate xs.length c) c (by simp) (by simpa using hci)
      (by simp; omega)
    simpa using H

theorem C7_witness :
    1 ≤ ([1, 2] : List ℚ).length ∧
    (Filter_SetTo ⟨⟨[1], 1⟩, ⟨[1], 1⟩, ⟨[1, 2], 2⟩, ⟨[3, 4], 2⟩⟩ 9
      = some ⟨⟨[1], 1⟩, ⟨[1], 1⟩, ⟨List.replicate ([1, 2] : List ℚ).length 9, 2⟩,
              ⟨List.replicate ([1, 2] : List ℚ).length 9, 2⟩⟩ ∧
    Filter_Last_Output ⟨⟨[1], 1⟩, ⟨[1], 1⟩,
        ⟨List.replicate ([1, 2] : List ℚ).length 9, 2⟩,
        ⟨List.replicate ([1, 2] : List ℚ).length 9, 2⟩⟩ = some 9 ∧
    Filter_SetTo ⟨⟨[1], 1⟩, ⟨[1], 1⟩,
        ⟨List.replicate ([1, 2] : List ℚ).length 9, 2⟩,
        ⟨List.replicate ([1, 2] : List ℚ).length 9, 2⟩⟩ 9
      = some ⟨⟨[1], 1⟩, ⟨[1], 1⟩, ⟨List.replicate ([1, 2] : List ℚ).length 9, 2⟩,
              ⟨List.replicate ([1, 2] : List ℚ).length 9, 2⟩⟩) :=
  ⟨by norm_num, C7_setto_overwrites ⟨[1], 1⟩ ⟨[1], 1⟩ 2 2 [1, 2] [3, 4] 9
    (by norm_num) rfl (by norm_num) (by norm_num)⟩

/-- Claim C8: `Filter_Last_Output` returns the newest (tail, logical
index `length − 1`) element of the output history — with no mutation,
as the function returns only a value and no state — and immediately
after any successful `Filter_Value` call on a Ready filter it returns
exactly the value that call returned. -/
theorem C8_last_output :
    (∀ f : Filter_Data_t, Filter_Last_Output f = f.out_list.data.getLast?) ∧
    (∀ (f : Filter_Data_t) (n : ℕ) (v : ℚ) (p : ℚ × Filter_Data_t),
      Ready f (n + 1) → Filter_Value f v = some p →
      Filter_Last_Output p.2 = some p.1) := by
  refine ⟨Filter_Last_Output_eq, ?_⟩
  intro f n v p hf hv
  obtain ⟨⟨nd, ncp⟩, ⟨dd, dcp⟩, ⟨xd, icp⟩, ⟨yd, ocp⟩⟩ := f
  obtain ⟨h1, h2, h3, h4, h5, h6, h7, h8⟩ := hf
  simp only at h1 h2 h3 h4 h5 h6 h7 h8
  rcases nd with _ | ⟨b₀, bsl⟩
  · simp at h1
  rcases dd with _ | ⟨a₀, asl⟩
  · simp at h2
  rcases xd with _ | ⟨x₀, xtl⟩
  · simp at h3
  rcases yd with _ | ⟨y₀, ytl⟩
  · simp at h4
  simp only [List.length_cons] at h1 h2 h3 h4
  have H := Filter_Value_eq n ncp dcp icp ocp b₀ a₀ x₀ y₀ v bsl asl xtl ytl
    (by omega) (by omega) (by omega) (by omega) h5 h6 h7 h8
  rw [H] at hv
  obtain rfl := Option.some.inj hv
  rw [Filter_Last_Output_eq]
  simp

theorem C8_witness :
    Ready ⟨⟨[1], 1⟩, ⟨[1], 1⟩, ⟨[0], 1⟩, ⟨[0], 1⟩⟩ (0 + 1) ∧
    Filter_Last_Output
        ((((1 : ℚ) * 7 + dot [] ([] : List ℚ).reverse
            - dot [] ([] : List ℚ).reverse) / 1,
          (⟨⟨[1], 1⟩, ⟨[1], 1⟩, ⟨[] ++ [7], 1⟩,
           ⟨[] ++ [((1 : ℚ) * 7 + dot [] ([] : List ℚ).reverse
            - dot [] ([] : List ℚ).reverse) / 1], 1⟩⟩ : Filter_Data_t)) :
            ℚ × Filter_Data_t).2
      = some ((((1 : ℚ) * 7 + dot [] ([] : List ℚ).reverse
            - dot [] ([] : List ℚ).reverse) / 1,
          (⟨⟨[1], 1⟩, ⟨[1], 1⟩, ⟨[] ++ [7], 1⟩,
           ⟨[] ++ [((1 : ℚ) * 7 + dot [] ([] : List ℚ).reverse
            - dot [] ([] : List ℚ).reverse) / 1], 1⟩⟩ : Filter_Data_t)) :
            ℚ × Filter_Data_t).1 :=
  ⟨by decide,
   C8_last_output.2 ⟨⟨[1], 1⟩, ⟨[1], 1⟩, ⟨[0], 1⟩, ⟨[0], 1⟩⟩ 0 7 _ (by decide)
     (Filter_Value_eq 0 1 1 1 1 1 1 0 0 7 [] [] [] [] rfl rfl rfl rfl
       (by norm_num) (by norm_num) (by norm_num) (by norm_num))⟩

/-- Claim C9 counterexample: for the order-0 filter with numerator [2],
denominator [1] (FIR-like: only a₀ nonzero, so even the claim's "in
particular" case is covered), zero histories, shift s = 1 and input
x = 0: shifting then filtering yields 0, while filtering x − s on the
unshifted filter and adding s yields −1. -/
theorem C9_counterexample :
    ((Filter_ShiftBy ⟨⟨[2], 1⟩, ⟨[1], 1⟩, ⟨[0], 1⟩, ⟨[0], 1⟩⟩ 1).bind
        fun f1 => (Filter_Value f1 0).map Prod.fst) = some 0 ∧
    (Filter_Value ⟨⟨[2], 1⟩, ⟨[1], 1⟩, ⟨[0], 1⟩, ⟨[0], 1⟩⟩ (0 - 1)).map
        (fun p => p.1 + 1) = some (-1) ∧
    (0 : ℚ) ≠ -1 := by
  have HS := Filter_ShiftBy_eq ⟨[2], 1⟩ ⟨[1], 1⟩ 1 1 [0] [0] 1 rfl
    (by norm_num) (by norm_num)
  have HV2 := Filter_Value_eq 0 1 1 1 1 2 1 (0 + 1) (0 + 1) 0
    ([] : List ℚ) [] [] [] rfl rfl rfl rfl
    (by norm_num) (by norm_num) (by norm_num) (by norm_num)
  have HV1 := Filter_Value_eq 0 1 1 1 1 2 1 0 0 (0 - 1)
    ([] : List ℚ) [] [] [] rfl rfl rfl rfl
    (by norm_num) (by norm_num) (by norm_num) (by norm_num)
  refine ⟨?_, ?_, by norm_num⟩
  · rw [HS]
    simp only [List.map_cons, List.map_nil, Option.some_bind]
    rw [HV2]
    norm_num [dot]
  · rw [HV1]
    norm_num [dot]

/-- Claim C9 (amended): the shift/filter commutation
`Filter_Value(ShiftBy(f,s), x) = Filter_Value(f, x−s) + s` holds on
every Ready state exactly under unit DC gain — when the sum of the
numerator coefficients equals the sum of the denominator coefficients
(`b₀ + Σ bs = a₀ + Σ as`), e.g. for a moving average; the original
claim's unrestricted form (and its "denominator has only a₀ nonzero"
rider) is refuted by the counterexample. -/
theorem C9_shift_commutation (n cn cd ci co : ℕ) (b₀ a₀ x₀ y₀ v s : ℚ)
    (bs az xt yt : List ℚ)
    (hbs : bs.length = n) (haz : az.length = n)
    (hxt : xt.length = n) (hyt : yt.length = n)
    (hcn : n + 1 ≤ cn) (hcd : n + 1 ≤ cd) (hci : n + 1 ≤ ci)
    (hco : n + 1 ≤ co) (ha₀ : a₀ ≠ 0)
    (hgain : b₀ + bs.sum = a₀ + az.sum) :
    ((Filter_ShiftBy ⟨⟨b₀ :: bs, cn⟩, ⟨a₀ :: az, cd⟩, ⟨x₀ :: xt, ci⟩,
        ⟨y₀ :: yt, co⟩⟩ s).bind
      fun f1 => (Filter_Value f1 v).map Prod.fst)
    = (Filter_Value ⟨⟨b₀ :: bs, cn⟩, ⟨a₀ :: az, cd⟩, ⟨x₀ :: xt, ci⟩,
        ⟨y₀ :: yt, co⟩⟩ (v - s)).map (fun p => p.1 + s) := by
  have HS := Filter_ShiftBy_eq ⟨b₀ :: bs, cn⟩ ⟨a₀ :: az, cd⟩ ci co
    (x₀ :: xt) (y₀ :: yt) s (by simp [hxt, hyt])
    (by simp [hxt]; omega) (by simp [hyt]; omega)
  have HV2 := Filter_Value_eq n cn cd ci co b₀ a₀ (x₀ + s) (y₀ + s) v bs az
    (xt.map (fun z => z + s)) (yt.map (fun z => z + s)) hbs haz
    (by simp [hxt]) (by simp [hyt]) hcn hcd hci hco
  have HV1 := Filter_Value_eq n cn cd ci co b₀ a₀ x₀ y₀ (v - s) bs az xt yt
    hbs haz hxt hyt hcn hcd hci hco
  rw [HS]
  simp only [List.map_cons, Option.some_bind]
  rw [HV2, HV1]
  simp only [Option.map_some']
  congr 1
  rw [← List.map_reverse, ← List.map_reverse,
    dot_map_add bs xt.reverse s (by simp [hbs, hxt]),
    dot_map_add az yt.reverse s (by simp [haz, hyt])]
  field_simp
  ring_nf
  linear_combination (s * 1) * hgain

theorem C9_witness :
    (1 : ℚ) ≠ 0 ∧ (1 : ℚ) + ([] : List ℚ).sum = 1 + ([] : List ℚ).sum ∧
    ((Filter_ShiftBy ⟨⟨[1], 1⟩, ⟨[1], 1⟩, ⟨[0], 1⟩, ⟨[0], 1⟩⟩ 2).bind
      fun f1 => (Filter_Value f1 5).map Prod.fst)
    = (Filter_Value ⟨⟨[1], 1⟩, ⟨[1], 1⟩, ⟨[0], 1⟩, ⟨[0], 1⟩⟩ (5 - 2)).map
        (fun p => p.1 + 2) :=
  ⟨by norm_num, rfl,
   C9_shift_commutation 0 1 1 1 1 1 1 0 0 5 2 [] [] [] [] rfl rfl rfl rfl
     (by norm_num) (by norm_num) (by norm_num) (by norm_num) (by norm_num) rfl⟩

/-- Claim C10: on any Ready filter (all four buffers at length
`order+1`, capacities at least `order+1`), `Filter_Value`,
`Filter_ShiftBy` and `Filter_SetTo` all return a result (`isSome`):
since every buffer-level pop-from-empty or push-into-full error branch
propagates as `none`, the error branches are unreachable under this
precondition. -/
theorem C10_no_buffer_errors (f : Filter_Data_t) (n : ℕ) (v s c : ℚ)
    (hf : Ready f (n + 1)) :
    (Filter_Value f v).isSome ∧ (Filter_ShiftBy f s).isSome ∧
    (Filter_SetTo f c).isSome := by
  obtain ⟨o, f1, hv, -, -, -⟩ := Filter_Value_ready f n v hf
  obtain ⟨f2, hs, -, -, -⟩ := Filter_ShiftBy_ready f (n + 1) s hf
  obtain ⟨f3, hc, -, -, -⟩ := Filter_SetTo_ready f (n + 1) c hf
  simp [hv, hs, hc]

theorem C10_witness :
    Ready ⟨⟨[1], 2⟩, ⟨[1], 2⟩, ⟨[0], 2⟩, ⟨[0], 2⟩⟩ (0 + 1) ∧
    ((Filter_Value ⟨⟨[1], 2⟩, ⟨[1], 2⟩, ⟨[0], 2⟩, ⟨[0], 2⟩⟩ 1).isSome ∧
     (Filter_ShiftBy ⟨⟨[1], 2⟩, ⟨[1], 2⟩, ⟨[0], 2⟩, ⟨[0], 2⟩⟩ 2).isSome ∧
     (Filter_SetTo ⟨⟨[1], 2⟩, ⟨[1], 2⟩, ⟨[0], 2⟩, ⟨[0], 2⟩⟩ 3).isSome) :=
  ⟨by decide,
   C10_no_buffer_errors ⟨⟨[1], 2⟩, ⟨[1], 2⟩, ⟨[0], 2⟩, ⟨[0], 2⟩⟩ 0 1 2 3 (by decide)⟩
